import Mathlib

/-!
Verification of the filter composition and line-visibility engine of the
regex-line-filter plugin, together with its filter state store and the
date-template resolver.

The definitions in the first part of this file are a shallow embedding of
the code in src/main.ts (final-form variant with heading children): the
helper buildCombinedRegex, the effect handlers of filterStateField.update,
and the visibility computation of buildDecorations.  The second part embeds
the Templater class of the final-form Templater.ts (range variables), over
an explicit calendar model standing in for the moment library.

External collaborators are modelled abstractly:
  - a compiled regular expression is an abstract matcher String to Bool;
    regex compilation is an abstract, possibly failing, function parameter
    (failure models a thrown exception caught by the source's try block);
  - moment's format method is an abstract, possibly failing, function
    parameter; moment dates are day-granular calendar dates.
-/

namespace RLF

/-- Whitespace class of the JavaScript regex escape backslash-s and of
String.prototype.trim, at the code points the plugin can meet. -/
def isJsSpace (c : Char) : Bool :=
  let n := c.toNat
  n == 0x20 || n == 0x09 || n == 0x0a || n == 0x0d || n == 0x0b || n == 0x0c ||
  n == 0xa0 || n == 0x1680 ||
  n == 0x2000 || n == 0x2001 || n == 0x2002 || n == 0x2003 || n == 0x2004 ||
  n == 0x2005 || n == 0x2006 || n == 0x2007 || n == 0x2008 || n == 0x2009 ||
  n == 0x200a || n == 0x2028 || n == 0x2029 || n == 0x202f || n == 0x205f ||
  n == 0x3000 || n == 0xfeff

/-- JavaScript String.prototype.trim: drop the whitespace run at both ends. -/
def jsTrim (s : String) : String :=
  ⟨((s.data.dropWhile isJsSpace).reverse.dropWhile isJsSpace).reverse⟩

/-- Embeds getIndentLevel of src/main.ts (lines 629-632): the length of the
match of caret-backslash-s-star, that is the count of leading whitespace
characters. -/
def getIndentLevel (text : String) : Nat :=
  (text.data.takeWhile isJsSpace).length

/-- Embeds getHeadingLevel of src/main.ts (lines 633-636): the length of the
leading run of hash characters when that run is non-empty and followed by a
whitespace character, else 0. -/
def getHeadingLevel (text : String) : Nat :=
  let hashes := text.data.takeWhile (fun c => c == '#')
  match text.data.drop hashes.length with
  | c :: _ => if 0 < hashes.length ∧ isJsSpace c then hashes.length else 0
  | [] => 0

/-- Line text at 0-based index i, empty for an out-of-range index. -/
def lineAt (lines : List String) (i : Nat) : String := lines.getD i ""

/-- Mark one line index visible in a visibility assignment. -/
def setVis (vis : Nat → Bool) (j : Nat) : Nat → Bool :=
  fun k => if k = j then true else vis k

/-- Embeds the indented-children loop of buildDecorations (src/main.ts lines
644-655): walk the given line indices, marking while the line's indent is
strictly greater than the seed's, stopping at the first line that is not. -/
def childScan (lines : List String) (parentIndent : Nat) :
    List Nat → (Nat → Bool) → (Nat → Bool)
  | [], vis => vis
  | j :: js, vis =>
    if parentIndent < getIndentLevel (lineAt lines j) then
      childScan lines parentIndent js (setVis vis j)
    else vis

/-- Embeds the heading-children loop of buildDecorations (src/main.ts lines
657-669): walk the given line indices, breaking at the first heading of
level at most the seed's, marking every earlier line. -/
def headScan (lines : List String) (parentLevel : Nat) :
    List Nat → (Nat → Bool) → (Nat → Bool)
  | [], vis => vis
  | j :: js, vis =>
    if 0 < getHeadingLevel (lineAt lines j) ∧
        getHeadingLevel (lineAt lines j) ≤ parentLevel then vis
    else headScan lines parentLevel js (setVis vis j)

/-- The indices scanned forward from line i: i+1 up to the last line. -/
def restIdx (lines : List String) (i : Nat) : List Nat :=
  List.range' (i + 1) (lines.length - (i + 1))

/-- One iteration of the seeding loop of buildDecorations (src/main.ts lines
639-671): if the combined matcher matches line i, mark i visible and run the
child and heading propagation scans. -/
def seedStep (lines : List String) (m : String → Bool)
    (includeChildItems includeHeadingChildItems : Bool)
    (vis : Nat → Bool) (i : Nat) : Nat → Bool :=
  let text := lineAt lines i
  if m text then
    let vis1 := setVis vis i
    let vis2 :=
      if includeChildItems then
        childScan lines (getIndentLevel text) (restIdx lines i) vis1
      else vis1
    if includeHeadingChildItems then
      if 0 < getHeadingLevel text then
        headScan lines (getHeadingLevel text) (restIdx lines i) vis2
      else vis2
    else vis2
  else vis

/-- Pass 1 of buildDecorations: the isVisible assignment after the seeding
loop has run over every line. -/
def pass1 (lines : List String) (m : String → Bool)
    (includeChildItems includeHeadingChildItems : Bool) : Nat → Bool :=
  (List.range lines.length).foldl
    (seedStep lines m includeChildItems includeHeadingChildItems) (fun _ => false)

/-- Embeds the visibility decision of buildDecorations (src/main.ts lines
602-692) as the per-line list of hide flags (true means hidden).  An absent
matcher is the early return with no decorations: no line hidden.  Otherwise
pass 2 (lines 673-686) hides a line not marked visible in pass 1, except
that a blank line is forced shown when hideEmptyLines is off. -/
def buildDecorations (lines : List String) (matcher : Option (String → Bool))
    (hideEmptyLines includeChildItems includeHeadingChildItems : Bool) : List Bool :=
  match matcher with
  | none => lines.map (fun _ => false)
  | some m =>
    let vis := pass1 lines m includeChildItems includeHeadingChildItems
    (List.range lines.length).map (fun i =>
      if jsTrim (lineAt lines i) = "" ∧ hideEmptyLines = false then false
      else !(vis i))

/-- Embeds buildCombinedRegex of src/main.ts (lines 479-495).  The compile
parameter stands for the RegExp constructor (pattern, flags); it returns
none when construction throws, which the source catches, returning null. -/
def buildCombinedRegex {M : Type} (compile : String → String → Option M)
    (regexStrings : List String) : Option M :=
  if regexStrings.length = 0 then none
  else
    let validPatterns :=
      (regexStrings.filter (fun s => jsTrim s ≠ "")).map (fun s => "(?:" ++ s ++ ")")
    if validPatterns.length = 0 then none
    else compile (String.intercalate "|" validPatterns) "u"

/-- The joined alternation buildCombinedRegex hands to the RegExp
constructor. -/
def joinedPattern (regexStrings : List String) : String :=
  String.intercalate "|"
    ((regexStrings.filter (fun s => jsTrim s ≠ "")).map (fun s => "(?:" ++ s ++ ")"))

/-- Modelled from the spec's description of the Pattern Compositor (compose):
discard whitespace-only entries, return Absent when none remain, else compile
the entries joined as an alternation of non-capturing groups with Unicode
semantics.  Stated from the spec's words for comparison with
buildCombinedRegex. -/
def composeSpec {M : Type} (compile : String → String → Option M)
    (resolvedPatterns : List String) : Option M :=
  let ps := resolvedPatterns.filter (fun s => !(s.data.all isJsSpace))
  if ps.isEmpty then none
  else compile (String.intercalate "|" (ps.map (fun p => "(?:" ++ p ++ ")"))) "u"

/-- JavaScript Array.prototype.indexOf: the first index holding the value,
none when absent. -/
def jsIndexOf (xs : List String) (s : String) : Option Nat :=
  match xs with
  | [] => none
  | x :: rest => if x == s then some 0 else (jsIndexOf rest s).map (· + 1)

/-- Embeds the toggleSpecificRegexStringEffect handler of
filterStateField.update (src/main.ts lines 534-544): indexOf then splice at
the found index, else push at the end. -/
def toggleSpecificRegexString (strings : List String) (str : String) : List String :=
  match jsIndexOf strings str with
  | some i => strings.eraseIdx i
  | none => strings ++ [str]

/-- Embeds the applyManualRegexStringEffect handler of
filterStateField.update (src/main.ts lines 545-547): null clears, any
non-null string becomes the whole set. -/
def applyManualRegexString (strings : List String) (value : Option String) : List String :=
  match value with
  | none => []
  | some s => [s]

/-- Embeds the clearAllRegexesEffect handler of filterStateField.update
(src/main.ts lines 548-549). -/
def clearAllRegexes (strings : List String) : List String := []

/-- Line k is reached from seed s by the indented-children propagation: it
lies after s, inside the document, and every line after s up to and
including k has indent strictly greater than the seed's indent. -/
def childMarked (lines : List String) (s k : Nat) : Prop :=
  s < k ∧ k < lines.length ∧
    ∀ t, s < t → t ≤ k → getIndentLevel (lineAt lines s) < getIndentLevel (lineAt lines t)

/-- Line k is reached from heading seed s by the heading-children
propagation: the seed is a heading, k lies after s inside the document, and
no line after s up to and including k is a heading of level at most the
seed's. -/
def headMarked (lines : List String) (s k : Nat) : Prop :=
  0 < getHeadingLevel (lineAt lines s) ∧ s < k ∧ k < lines.length ∧
    ∀ t, s < t → t ≤ k →
      ¬(0 < getHeadingLevel (lineAt lines t) ∧
        getHeadingLevel (lineAt lines t) ≤ getHeadingLevel (lineAt lines s))

theorem setVis_eq_true (vis : Nat → Bool) (j k : Nat) :
    setVis vis j k = true ↔ vis k = true ∨ k = j := by
  unfold setVis
  split
  · simp [*]
  · simp [*]

theorem childScan_spec (lines : List String) (p : Nat) :
    ∀ (cnt j0 : Nat) (vis : Nat → Bool) (k : Nat),
      childScan lines p (List.range' j0 cnt) vis k = true ↔
        vis k = true ∨ (j0 ≤ k ∧ k < j0 + cnt ∧
          ∀ t, j0 ≤ t → t ≤ k → p < getIndentLevel (lineAt lines t)) := by
  intro cnt
  induction cnt with
  | zero =>
    intro j0 vis k
    constructor
    · intro h
      exact Or.inl h
    · rintro (h | ⟨h1, h2, _⟩)
      · exact h
      · omega
  | succ n ih =>
    intro j0 vis k
    rw [List.range'_succ]
    show childScan lines p (j0 :: List.range' (j0 + 1) n) vis k = true ↔ _
    unfold childScan
    split
    case isTrue h =>
      rw [ih (j0 + 1) (setVis vis j0) k, setVis_eq_true]
      constructor
      · rintro ((hv | rfl) | ⟨h1, h2, h3⟩)
        · exact Or.inl hv
        · refine Or.inr ⟨le_refl _, by omega, fun t ht1 ht2 => ?_⟩
          have : t = k := by omega
          subst this
          exact h
        · refine Or.inr ⟨by omega, by omega, fun t ht1 ht2 => ?_⟩
          rcases Nat.eq_or_lt_of_le ht1 with heq | hlt
          · subst heq
            exact h
          · exact h3 t (by omega) ht2
      · rintro (hv | ⟨h1, h2, h3⟩)
        · exact Or.inl (Or.inl hv)
        · by_cases hk : k = j0
          · exact Or.inl (Or.inr hk)
          · exact Or.inr ⟨by omega, by omega, fun t ht1 ht2 => h3 t (by omega) ht2⟩
    case isFalse h =>
      constructor
      · intro hv
        exact Or.inl hv
      · rintro (hv | ⟨h1, h2, h3⟩)
        · exact hv
        · exact absurd (h3 j0 (le_refl _) h1) h

theorem headScan_spec (lines : List String) (L : Nat) :
    ∀ (cnt j0 : Nat) (vis : Nat → Bool) (k : Nat),
      headScan lines L (List.range' j0 cnt) vis k = true ↔
        vis k = true ∨ (j0 ≤ k ∧ k < j0 + cnt ∧
          ∀ t, j0 ≤ t → t ≤ k →
            ¬(0 < getHeadingLevel (lineAt lines t) ∧
              getHeadingLevel (lineAt lines t) ≤ L)) := by
  intro cnt
  induction cnt with
  | zero =>
    intro j0 vis k
    constructor
    · intro h
      exact Or.inl h
    · rintro (h | ⟨h1, h2, _⟩)
      · exact h
      · omega
  | succ n ih =>
    intro j0 vis k
    rw [List.range'_succ]
    show headScan lines L (j0 :: List.range' (j0 + 1) n) vis k = true ↔ _
    unfold headScan
    split
    case isTrue h =>
      constructor
      · intro hv
        exact Or.inl hv
      · rintro (hv | ⟨h1, h2, h3⟩)
        · exact hv
        · exact absurd h (h3 j0 (le_refl _) h1)
    case isFalse h =>
      rw [ih (j0 + 1) (setVis vis j0) k, setVis_eq_true]
      constructor
      · rintro ((hv | rfl) | ⟨h1, h2, h3⟩)
        · exact Or.inl hv
        · refine Or.inr ⟨le_refl _, by omega, fun t ht1 ht2 => ?_⟩
          have : t = k := by omega
          subst this
          exact h
        · refine Or.inr ⟨by omega, by omega, fun t ht1 ht2 => ?_⟩
          rcases Nat.eq_or_lt_of_le ht1 with heq | hlt
          · subst heq
            exact h
          · exact h3 t (by omega) ht2
      · rintro (hv | ⟨h1, h2, h3⟩)
        · exact Or.inl (Or.inl hv)
        · by_cases hk : k = j0
          · exact Or.inl (Or.inr hk)
          · exact Or.inr ⟨by omega, by omega, fun t ht1 ht2 => h3 t (by omega) ht2⟩

theorem childPart_iff (lines : List String) (i k : Nat) (hi : i < lines.length) :
    (i + 1 ≤ k ∧ k < i + 1 + (lines.length - (i + 1)) ∧
      ∀ t, i + 1 ≤ t → t ≤ k →
        getIndentLevel (lineAt lines i) < getIndentLevel (lineAt lines t))
      ↔ childMarked lines i k := by
  unfold childMarked
  constructor
  · rintro ⟨h1, h2, h3⟩
    exact ⟨h1, by omega, fun t ht1 ht2 => h3 t ht1 ht2⟩
  · rintro ⟨h1, h2, h3⟩
    exact ⟨h1, by omega, fun t ht1 ht2 => h3 t ht1 ht2⟩

theorem headPart_iff (lines : List String) (i k : Nat) (hi : i < lines.length)
    (hhl : 0 < getHeadingLevel (lineAt lines i)) :
    (i + 1 ≤ k ∧ k < i + 1 + (lines.length - (i + 1)) ∧
      ∀ t, i + 1 ≤ t → t ≤ k →
        ¬(0 < getHeadingLevel (lineAt lines t) ∧
          getHeadingLevel (lineAt lines t) ≤ getHeadingLevel (lineAt lines i)))
      ↔ headMarked lines i k := by
  unfold headMarked
  constructor
  · rintro ⟨h1, h2, h3⟩
    exact ⟨hhl, h1, by omega, fun t ht1 ht2 => h3 t ht1 ht2⟩
  · rintro ⟨_, h1, h2, h3⟩
    exact ⟨h1, by omega, fun t ht1 ht2 => h3 t ht1 ht2⟩

theorem seedStep_spec (lines : List String) (m : String → Bool) (cc hh : Bool)
    (vis : Nat → Bool) (i k : Nat) (hi : i < lines.length) :
    seedStep lines m cc hh vis i k = true ↔
      vis k = true ∨ (m (lineAt lines i) = true ∧
        (k = i ∨ (cc = true ∧ childMarked lines i k) ∨
          (hh = true ∧ headMarked lines i k))) := by
  have hrest : restIdx lines i = List.range' (i + 1) (lines.length - (i + 1)) := rfl
  cases hm : m (lineAt lines i) with
  | false =>
    simp only [seedStep, hm, Bool.false_eq_true, if_false, false_and, or_false]
  | true =>
    simp only [seedStep, hm, if_true, true_and, hrest]
    cases cc with
    | false =>
      cases hh with
      | false =>
        simp only [Bool.false_eq_true, if_false, false_and, false_or, or_false]
        rw [setVis_eq_true]
      | true =>
        simp only [Bool.false_eq_true, if_false, false_and, false_or, if_true]
        by_cases hhl : 0 < getHeadingLevel (lineAt lines i)
        · rw [if_pos hhl, headScan_spec, setVis_eq_true,
            headPart_iff lines i k hi hhl]
          simp only [true_and]
          tauto
        · rw [if_neg hhl, setVis_eq_true]
          simp [headMarked, hhl]
    | true =>
      cases hh with
      | false =>
        simp only [Bool.false_eq_true, if_false, false_and, or_false, if_true, true_and]
        rw [childScan_spec, setVis_eq_true, childPart_iff lines i k hi]
        tauto
      | true =>
        simp only [if_true, true_and]
        by_cases hhl : 0 < getHeadingLevel (lineAt lines i)
        · rw [if_pos hhl, headScan_spec, childScan_spec, setVis_eq_true,
            headPart_iff lines i k hi hhl, childPart_iff lines i k hi]
          tauto
        · rw [if_neg hhl, childScan_spec, setVis_eq_true, childPart_iff lines i k hi]
          simp only [headMarked, hhl, false_and, or_false]
          tauto

theorem foldlSeed_spec (lines : List String) (m : String → Bool) (cc hh : Bool) :
    ∀ N : Nat, N ≤ lines.length → ∀ (v0 : Nat → Bool) (k : Nat),
      ((List.range N).foldl (seedStep lines m cc hh) v0) k = true ↔
        v0 k = true ∨ ∃ s, s < N ∧ m (lineAt lines s) = true ∧
          (k = s ∨ (cc = true ∧ childMarked lines s k) ∨
            (hh = true ∧ headMarked lines s k)) := by
  intro N
  induction N with
  | zero =>
    intro _ v0 k
    simp [List.range_zero]
  | succ n ih =>
    intro hN v0 k
    rw [List.range_succ, List.foldl_append]
    simp only [List.foldl_cons, List.foldl_nil]
    rw [seedStep_spec lines m cc hh _ n k (by omega), ih (by omega) v0 k]
    constructor
    · rintro ((hv | ⟨s, hs, hm2, hd⟩) | ⟨hm2, hd⟩)
      · exact Or.inl hv
      · exact Or.inr ⟨s, by omega, hm2, hd⟩
      · exact Or.inr ⟨n, by omega, hm2, hd⟩
    · rintro (hv | ⟨s, hs, hm2, hd⟩)
      · exact Or.inl (Or.inl hv)
      · rcases Nat.lt_succ_iff_lt_or_eq.mp hs with h | rfl
        · exact Or.inl (Or.inr ⟨s, h, hm2, hd⟩)
        · exact Or.inr ⟨hm2, hd⟩

theorem pass1_spec (lines : List String) (m : String → Bool) (cc hh : Bool) (k : Nat) :
    pass1 lines m cc hh k = true ↔
      ∃ s, s < lines.length ∧ m (lineAt lines s) = true ∧
        (k = s ∨ (cc = true ∧ childMarked lines s k) ∨
          (hh = true ∧ headMarked lines s k)) := by
  unfold pass1
  rw [foldlSeed_spec lines m cc hh lines.length (le_refl _) _ k]
  simp

theorem all_dropWhile_iff (p : Char → Bool) (l : List Char) :
    (∀ x ∈ l.dropWhile p, p x = true) ↔ ∀ x ∈ l, p x = true := by
  constructor
  · intro h x hx
    have hx2 : x ∈ l.takeWhile p ++ l.dropWhile p := by
      rw [List.takeWhile_append_dropWhile]
      exact hx
    rcases List.mem_append.mp hx2 with h1 | h2
    · exact List.mem_takeWhile_imp h1
    · exact h x h2
  · intro h x hx
    exact h x ((List.dropWhile_sublist p).subset hx)

theorem jsTrim_eq_empty (s : String) :
    jsTrim s = "" ↔ s.data.all isJsSpace = true := by
  unfold jsTrim
  rw [String.ext_iff]
  show ((s.data.dropWhile isJsSpace).reverse.dropWhile isJsSpace).reverse = ([] : List Char) ↔ _
  rw [List.reverse_eq_nil_iff, List.dropWhile_eq_nil_iff]
  simp only [List.mem_reverse]
  rw [all_dropWhile_iff, List.all_eq_true]

theorem jsIndexOf_eq_none (xs : List String) (s : String) :
    jsIndexOf xs s = none ↔ s ∉ xs := by
  induction xs with
  | nil => simp [jsIndexOf]
  | cons a tl ih =>
    by_cases hap : a = s
    · subst hap
      simp [jsIndexOf]
    · have hbeq : (a == s) = false := by simp [hap]
      simp [jsIndexOf, hbeq, ih, hap]
      intro _ hs
      exact hap hs.symm

theorem jsIndexOf_erase (xs : List String) (s : String) :
    ∀ i, jsIndexOf xs s = some i → xs.eraseIdx i = xs.erase s := by
  induction xs with
  | nil => simp [jsIndexOf]
  | cons a tl ih =>
    intro i h
    by_cases hap : a = s
    · subst hap
      simp [jsIndexOf] at h
      subst h
      simp [List.eraseIdx]
    · have hbeq : (a == s) = false := by simp [hap]
      simp only [jsIndexOf, hbeq, Bool.false_eq_true, if_false] at h
      rcases Option.map_eq_some'.mp h with ⟨j, hj, rfl⟩
      show a :: tl.eraseIdx j = (a :: tl).erase s
      rw [ih j hj, List.erase_cons_tail]
      simp [hbeq]

theorem toggleSpecific_eq (S : List String) (p : String) :
    toggleSpecificRegexString S p = if p ∈ S then S.erase p else S ++ [p] := by
  unfold toggleSpecificRegexString
  cases hidx : jsIndexOf S p with
  | none => rw [if_neg ((jsIndexOf_eq_none S p).mp hidx)]
  | some i =>
    have hmem : p ∈ S := by
      by_contra hp
      rw [(jsIndexOf_eq_none S p).mpr hp] at hidx
      exact Option.noConfusion hidx
    rw [if_pos hmem]
    show S.eraseIdx i = S.erase p
    exact jsIndexOf_erase S p i hidx

/-- C1.  Final per-line decision of pass 2 of buildDecorations: with a
present matcher, line i is hidden iff it was not marked visible in pass 1,
with the single exception that a blank line is forced shown when
hideEmptyLines is false; when hideEmptyLines is true blank lines follow the
default rule. -/
theorem buildDecorations_hidden_iff (lines : List String) (m : String → Bool)
    (he cc hh : Bool) (i : Nat) (hi : i < lines.length) :
    (buildDecorations lines (some m) he cc hh).getD i true = true ↔
      (pass1 lines m cc hh i = false ∧
        ¬(jsTrim (lineAt lines i) = "" ∧ he = false)) := by
  simp only [buildDecorations]
  rw [List.getD_eq_getElem?_getD, List.getElem?_map]
  simp only [List.getElem?_range, hi, if_pos, Option.map_some', Option.getD_some]
  split_ifs with h
  · simp [h]
  · simp [h, Bool.not_eq_true']

/-- Witness for C1 at a concrete document: one blank line, no match,
hideEmptyLines off. -/
theorem buildDecorations_hidden_iff_witness :
    (0 : Nat) < ([""] : List String).length ∧
    ((buildDecorations [""] (some (fun _ => false)) false false false).getD 0 true = true ↔
      (pass1 [""] (fun _ => false) false false 0 = false ∧
        ¬(jsTrim (lineAt [""] 0) = "" ∧ false = false))) :=
  ⟨by decide, buildDecorations_hidden_iff [""] (fun _ => false) false false false 0 (by decide)⟩

/-- C2.  With includeChildItems on (heading propagation off), a line is
visible after pass 1 iff it is a seed or is reached from a seed by indent
propagation: strictly greater indent on it and on every line between it and
the seed; a line of indent at most the seed's stops the scan and can only be
visible as a seed of its own or through another seed. -/
theorem childPropagation_iff (lines : List String) (m : String → Bool) (k : Nat) :
    pass1 lines m true false k = true ↔
      ∃ s, s < lines.length ∧ m (lineAt lines s) = true ∧
        (k = s ∨ childMarked lines s k) := by
  rw [pass1_spec]
  simp

/-- C3.  With includeHeadingChildItems on (indent propagation off), a line
is visible after pass 1 iff it is a seed or lies under a heading seed with
no intervening heading of level at most the seed's, that boundary heading
excluded; a non-heading seed contributes nothing beyond itself. -/
theorem headingPropagation_iff (lines : List String) (m : String → Bool) (k : Nat) :
    pass1 lines m false true k = true ↔
      ∃ s, s < lines.length ∧ m (lineAt lines s) = true ∧
        (k = s ∨ headMarked lines s k) := by
  rw [pass1_spec]
  simp

/-- C4.  buildCombinedRegex agrees with the spec's compose on every input:
whitespace-only entries are discarded, an empty remainder gives Absent, and
otherwise the remainder is joined as an alternation of non-capturing groups
and compiled with the Unicode flag. -/
theorem buildCombinedRegex_eq_composeSpec {M : Type}
    (compile : String → String → Option M) (ss : List String) :
    buildCombinedRegex compile ss = composeSpec compile ss := by
  have hf : ss.filter (fun s => decide (jsTrim s ≠ "")) =
      ss.filter (fun s => !(s.data.all isJsSpace)) := by
    apply List.filter_congr
    intro x _
    have h := jsTrim_eq_empty x
    by_cases hx : jsTrim x = ""
    · simp [hx, h.mp hx]
    · have hall : ¬(x.data.all isJsSpace = true) := fun hc => hx (h.mpr hc)
      simp [hx, Bool.eq_false_iff.mpr hall]
  simp only [buildCombinedRegex, composeSpec, hf]
  rcases ss with _ | ⟨a, tl⟩
  · simp
  · rw [if_neg (by simp)]
    by_cases hemp : (a :: tl).filter (fun s => !(s.data.all isJsSpace)) = []
    · simp [hemp]
    · rw [if_neg (by simp [hemp]), if_neg (by simp [hemp])]

/-- C5.  Filtering fails open: an empty pattern list composes to Absent, a
compile failure of the joined alternation yields Absent instead of an
exception, and an absent matcher hides no line of any document. -/
theorem filter_failOpen {M : Type} (compile : String → String → Option M)
    (ss lines : List String) (he cc hh : Bool) :
    buildCombinedRegex compile ([] : List String) = none ∧
    (compile (joinedPattern ss) "u" = none → buildCombinedRegex compile ss = none) ∧
    buildDecorations lines none he cc hh = lines.map (fun _ => false) := by
  refine ⟨rfl, ?_, rfl⟩
  intro hc
  simp only [buildCombinedRegex]
  split
  · rfl
  · split
    · rfl
    · exact hc

/-- Witness for C5 with a compile function that always fails. -/
theorem filter_failOpen_witness :
    buildCombinedRegex (fun _ _ => (none : Option Unit)) ["a"] = none :=
  (filter_failOpen (fun _ _ => (none : Option Unit)) ["a"] [] true true true).2.1 rfl

/-- C6.  toggleSpecific is a symmetric difference on a duplicate-free raw
filter set: it appends an absent pattern, removes a present one, and
toggling the same pattern twice restores the set up to membership. -/
theorem toggleSpecific_symmDiff (S : List String) (p : String) (hnd : S.Nodup) :
    (p ∉ S → toggleSpecificRegexString S p = S ++ [p]) ∧
    (p ∈ S → p ∉ toggleSpecificRegexString S p ∧
      ∀ x, x ∈ toggleSpecificRegexString S p ↔ x ∈ S ∧ x ≠ p) ∧
    (∀ x, x ∈ toggleSpecificRegexString (toggleSpecificRegexString S p) p ↔ x ∈ S) := by
  refine ⟨fun hp => by rw [toggleSpecific_eq, if_neg hp], fun hp => ?_, fun x => ?_⟩
  · rw [toggleSpecific_eq, if_pos hp]
    constructor
    · intro hmem
      exact ((hnd.mem_erase_iff).mp hmem).1 rfl
    · intro x
      rw [hnd.mem_erase_iff]
      tauto
  · by_cases hp : p ∈ S
    · have hin : toggleSpecificRegexString S p = S.erase p := by
        rw [toggleSpecific_eq, if_pos hp]
      have hout : p ∉ S.erase p := fun hmem => ((hnd.mem_erase_iff).mp hmem).1 rfl
      rw [hin, toggleSpecific_eq, if_neg hout]
      simp only [List.mem_append, hnd.mem_erase_iff, List.mem_singleton]
      constructor
      · rintro (⟨_, hx⟩ | rfl)
        · exact hx
        · exact hp
      · intro hx
        by_cases hxp : x = p
        · exact Or.inr hxp
        · exact Or.inl ⟨hxp, hx⟩
    · have hin : toggleSpecificRegexString S p = S ++ [p] := by
        rw [toggleSpecific_eq, if_neg hp]
      rw [hin, toggleSpecific_eq, if_pos (by simp), List.erase_append_right _ hp]
      simp

/-- Witness for C6 on the concrete set A, B toggling A. -/
theorem toggleSpecific_symmDiff_witness :
    "B" ∈ toggleSpecificRegexString (toggleSpecificRegexString ["A", "B"] "A") "A" ↔
      "B" ∈ (["A", "B"] : List String) :=
  (toggleSpecific_symmDiff ["A", "B"] "A" (by decide)).2.2 "B"

/-- Counterexample for C7 as stated: the applyManualRegexStringEffect
handler maps a blank, non-null pattern to the singleton of that blank
string, not to the empty set. -/
theorem applyManual_blank_counterexample :
    jsTrim " " = "" ∧
    applyManualRegexString ["a"] (some " ") = [" "] ∧
    applyManualRegexString ["a"] (some " ") ≠ [] := by
  refine ⟨by decide, rfl, by decide⟩

/-- C7 amended.  applyManual is absolute: any non-null pattern (blank
included) replaces the whole set with its singleton, null replaces it with
the empty set, and clearAll empties the set; blank manual input is kept out
by the input modal, which never dispatches it. -/
theorem applyManual_absolute (S : List String) (p : String) :
    applyManualRegexString S (some p) = [p] ∧
    applyManualRegexString S none = [] ∧
    clearAllRegexes S = [] :=
  ⟨rfl, rfl, rfl⟩

/-- C10.  toggleSpecific preserves activation order: an absent pattern is
appended at the end, and removing a present pattern keeps every other
element in its relative position (on a duplicate-free set it is exactly the
order-preserving filter dropping that pattern). -/
theorem toggleSpecific_order (S : List String) (p : String) :
    (p ∉ S → toggleSpecificRegexString S p = S ++ [p]) ∧
    (p ∈ S → S.Nodup →
      toggleSpecificRegexString S p = S.filter (fun x => x != p)) := by
  constructor
  · intro hp
    rw [toggleSpecific_eq, if_neg hp]
  · intro hp hnd
    rw [toggleSpecific_eq, if_pos hp]
    exact hnd.erase_eq_filter p

/-- Witness for C10: appending toggle on a concrete set, and removing the
middle element of a three-element set keeps the outer two in order. -/
theorem toggleSpecific_order_witness :
    toggleSpecificRegexString ["A", "B", "C"] "B" = ["A", "B", "C"].filter (fun x => x != "B") :=
  (toggleSpecific_order ["A", "B", "C"] "B").2 (by decide) (by decide)

/-!
Calendar model standing in for the moment library, at day granularity.
Gregorian leap rule, month lengths, and a running day count used to drive
the date-collection loop of Templater.getDatesForRange.
-/

/-- Gregorian leap-year rule, as moment implements it. -/
def isLeap (y : Nat) : Bool := (y % 4 == 0 && y % 100 != 0) || y % 400 == 0

/-- Number of days of month m (1-12) of year y; 0 for an out-of-range m. -/
def daysInMonth (y m : Nat) : Nat :=
  if m = 2 then (if isLeap y then 29 else 28)
  else if m = 4 ∨ m = 6 ∨ m = 9 ∨ m = 11 then 30
  else if 1 ≤ m ∧ m ≤ 12 then 31
  else 0

theorem daysInMonth_pos (y m : Nat) (h1 : 1 ≤ m) (h2 : m ≤ 12) :
    1 ≤ daysInMonth y m := by
  unfold daysInMonth
  split_ifs <;> omega

theorem daysInMonth_bounds (y m : Nat) (h1 : 1 ≤ m) (h2 : m ≤ 12) :
    28 ≤ daysInMonth y m ∧ daysInMonth y m ≤ 31 := by
  unfold daysInMonth
  split_ifs <;> omega

/-- One extra day in a leap year. -/
def leapAdj (y : Nat) : Nat := if isLeap y then 1 else 0

/-- Cumulative days of year y before month m starts. -/
def daysBeforeMonth (y m : Nat) : Nat :=
  match m with
  | 1 => 0
  | 2 => 31
  | 3 => 59 + leapAdj y
  | 4 => 90 + leapAdj y
  | 5 => 120 + leapAdj y
  | 6 => 151 + leapAdj y
  | 7 => 181 + leapAdj y
  | 8 => 212 + leapAdj y
  | 9 => 243 + leapAdj y
  | 10 => 273 + leapAdj y
  | 11 => 304 + leapAdj y
  | 12 => 334 + leapAdj y
  | _ => 0

/-- Number of days of year y: 365, or 366 in a leap year. -/
def daysInYear (y : Nat) : Nat := 365 + leapAdj y

theorem daysBeforeMonth_succ (y m : Nat) (h1 : 1 ≤ m) (h2 : m ≤ 11) :
    daysBeforeMonth y (m + 1) = daysBeforeMonth y m + daysInMonth y m := by
  interval_cases m <;> simp [daysBeforeMonth, daysInMonth, leapAdj] <;> split_ifs <;> omega

theorem daysBeforeMonth_last (y : Nat) :
    daysBeforeMonth y 12 + daysInMonth y 12 = daysInYear y := by
  simp only [daysBeforeMonth, daysInMonth, daysInYear]
  norm_num
  omega

/-- Cumulative days before year y starts, counting from year 0. -/
def daysBeforeYear : Nat → Nat
  | 0 => 0
  | y + 1 => daysBeforeYear y + daysInYear y

/-- A calendar date at day granularity, with its validity invariants. -/
structure Date where
  y : Nat
  m : Nat
  d : Nat
  hm1 : 1 ≤ m
  hm2 : m ≤ 12
  hd1 : 1 ≤ d
  hd2 : d ≤ daysInMonth y m

/-- Running day count of a date, strictly monotone along the calendar. -/
def dayNumber (dt : Date) : Nat :=
  daysBeforeYear dt.y + daysBeforeMonth dt.y dt.m + dt.d

/-- The next calendar day. -/
def addDay (dt : Date) : Date :=
  if h : dt.d < daysInMonth dt.y dt.m then
    ⟨dt.y, dt.m, dt.d + 1, dt.hm1, dt.hm2, by omega, h⟩
  else if h2 : dt.m < 12 then
    ⟨dt.y, dt.m + 1, 1, by omega, by omega, le_refl 1,
      daysInMonth_pos dt.y (dt.m + 1) (by omega) (by omega)⟩
  else
    ⟨dt.y + 1, 1, 1, le_refl 1, by omega, le_refl 1,
      daysInMonth_pos (dt.y + 1) 1 (le_refl 1) (by omega)⟩

theorem dayNumber_addDay (dt : Date) : dayNumber (addDay dt) = dayNumber dt + 1 := by
  have hd2 := dt.hd2
  have hm1 := dt.hm1
  have hm2 := dt.hm2
  unfold addDay
  split_ifs with h h2
  · show daysBeforeYear dt.y + daysBeforeMonth dt.y dt.m + (dt.d + 1) =
      daysBeforeYear dt.y + daysBeforeMonth dt.y dt.m + dt.d + 1
    omega
  · have hd : dt.d = daysInMonth dt.y dt.m := by omega
    show daysBeforeYear dt.y + daysBeforeMonth dt.y (dt.m + 1) + 1 =
      daysBeforeYear dt.y + daysBeforeMonth dt.y dt.m + dt.d + 1
    rw [daysBeforeMonth_succ dt.y dt.m hm1 (by omega), hd]
    omega
  · have hm : dt.m = 12 := by omega
    have hd : dt.d = daysInMonth dt.y dt.m := by omega
    have hlast := daysBeforeMonth_last dt.y
    have hstep : daysBeforeYear (dt.y + 1) = daysBeforeYear dt.y + daysInYear dt.y := rfl
    show daysBeforeYear (dt.y + 1) + daysBeforeMonth (dt.y + 1) 1 + 1 =
      daysBeforeYear dt.y + daysBeforeMonth dt.y dt.m + dt.d + 1
    rw [hm] at hd ⊢
    have h1 : daysBeforeMonth (dt.y + 1) 1 = 0 := rfl
    rw [hstep, h1, hd]
    omega

/-- Iterated next day (moment add of days). -/
def addDays (dt : Date) : Nat → Date
  | 0 => dt
  | k + 1 => addDays (addDay dt) k

theorem dayNumber_addDays : ∀ (k : Nat) (dt : Date),
    dayNumber (addDays dt k) = dayNumber dt + k := by
  intro k
  induction k with
  | zero => intro dt; rfl
  | succ n ih =>
    intro dt
    show dayNumber (addDays (addDay dt) n) = _
    rw [ih, dayNumber_addDay]
    omega

/-- The previous calendar day. -/
def subDay (dt : Date) : Date :=
  if h : 2 ≤ dt.d then
    ⟨dt.y, dt.m, dt.d - 1, dt.hm1, dt.hm2, by omega, by have := dt.hd2; omega⟩
  else if h2 : 2 ≤ dt.m then
    ⟨dt.y, dt.m - 1, daysInMonth dt.y (dt.m - 1), by omega, by have := dt.hm2; omega,
      daysInMonth_pos dt.y (dt.m - 1) (by omega) (by have := dt.hm2; omega), le_refl _⟩
  else
    ⟨dt.y - 1, 12, 31, by omega, le_refl _, by omega, by simp [daysInMonth]⟩

/-- Iterated previous day (moment subtract of days). -/
def subDays (dt : Date) : Nat → Date
  | 0 => dt
  | k + 1 => subDays (subDay dt) k

/-- Moment subtract of one month: previous month, day clamped to its
length. -/
def subMonth (dt : Date) : Date :=
  if h : 2 ≤ dt.m then
    ⟨dt.y, dt.m - 1, min dt.d (daysInMonth dt.y (dt.m - 1)), by omega,
      by have := dt.hm2; omega,
      by have h1 := dt.hd1
         have h2 := daysInMonth_pos dt.y (dt.m - 1) (by omega) (by have := dt.hm2; omega)
         omega,
      by omega⟩
  else
    ⟨dt.y - 1, 12, min dt.d 31, by omega, le_refl _, by have := dt.hd1; omega,
      by have h31 : daysInMonth (dt.y - 1) 12 = 31 := by simp [daysInMonth]
         omega⟩

/-- Moment add of one month: next month, day clamped to its length. -/
def addMonth (dt : Date) : Date :=
  if h : dt.m ≤ 11 then
    ⟨dt.y, dt.m + 1, min dt.d (daysInMonth dt.y (dt.m + 1)), by omega, by omega,
      by have h1 := dt.hd1
         have h2 := daysInMonth_pos dt.y (dt.m + 1) (by omega) (by omega)
         omega,
      by omega⟩
  else
    ⟨dt.y + 1, 1, min dt.d 31, le_refl _, by omega, by have := dt.hd1; omega,
      by have h31 : daysInMonth (dt.y + 1) 1 = 31 := by simp [daysInMonth]
         omega⟩

/-- Moment subtract of one year, day clamped (relevant only to Feb 29). -/
def subYear (dt : Date) : Date :=
  ⟨dt.y - 1, dt.m, min dt.d (daysInMonth (dt.y - 1) dt.m), dt.hm1, dt.hm2,
    by have h1 := dt.hd1
       have h2 := daysInMonth_pos (dt.y - 1) dt.m dt.hm1 dt.hm2
       omega,
    by omega⟩

/-- Moment add of one year, day clamped (relevant only to Feb 29). -/
def addYear (dt : Date) : Date :=
  ⟨dt.y + 1, dt.m, min dt.d (daysInMonth (dt.y + 1) dt.m), dt.hm1, dt.hm2,
    by have h1 := dt.hd1
       have h2 := daysInMonth_pos (dt.y + 1) dt.m dt.hm1 dt.hm2
       omega,
    by omega⟩

/-- Moment startOf month at day granularity. -/
def startOfMonth (dt : Date) : Date :=
  ⟨dt.y, dt.m, 1, dt.hm1, dt.hm2, le_refl _, daysInMonth_pos dt.y dt.m dt.hm1 dt.hm2⟩

/-- Moment endOf month at day granularity: the last day of the month. -/
def endOfMonth (dt : Date) : Date :=
  ⟨dt.y, dt.m, daysInMonth dt.y dt.m, dt.hm1, dt.hm2,
    daysInMonth_pos dt.y dt.m dt.hm1 dt.hm2, le_refl _⟩

/-- Moment startOf year at day granularity: January 1. -/
def startOfYear (dt : Date) : Date :=
  ⟨dt.y, 1, 1, le_refl _, by omega, le_refl _,
    daysInMonth_pos dt.y 1 (le_refl _) (by omega)⟩

/-- Moment endOf year at day granularity: December 31. -/
def endOfYear (dt : Date) : Date :=
  ⟨dt.y, 12, 31, by omega, le_refl _, by omega, by simp [daysInMonth]⟩

/-- ISO weekday, 1 for Monday through 7 for Sunday, anchored so that day
number 3 (January 1 of year 1 in this count) is a Monday, matching the
proleptic Gregorian calendar. -/
def isoWeekday (dt : Date) : Nat := (dayNumber dt + 4) % 7 + 1

/-- Moment startOf isoWeek at day granularity: the Monday of the current
ISO week. -/
def startOfIsoWeek (dt : Date) : Date := subDays dt (isoWeekday dt - 1)

/-- Moment endOf isoWeek at day granularity: the Sunday of the current ISO
week, six days after its Monday. -/
def endOfIsoWeek (dt : Date) : Date := addDays (startOfIsoWeek dt) 6

/-- Fuel-indexed unrolling of the date-collection while loop of
Templater.getDatesForRange; the fuel bounds the iteration count and is
irrelevant whenever it is at least the span of the range (see
collectDatesAux_fuel and collectDates_eq). -/
def collectDatesAux (endD : Date) : Nat → Date → List Date
  | 0, _ => []
  | fuel + 1, cur =>
    if dayNumber cur ≤ dayNumber endD then cur :: collectDatesAux endD fuel (addDay cur)
    else []

/-- The while loop of Templater.getDatesForRange: collect every day from
cur to endD inclusive, stepping one day at a time. -/
def collectDates (cur endD : Date) : List Date :=
  collectDatesAux endD (dayNumber endD + 1 - dayNumber cur) cur

theorem collectDatesAux_fuel (endD : Date) :
    ∀ (f1 f2 : Nat) (cur : Date),
      dayNumber endD + 1 - dayNumber cur ≤ f1 →
      dayNumber endD + 1 - dayNumber cur ≤ f2 →
      collectDatesAux endD f1 cur = collectDatesAux endD f2 cur := by
  intro f1
  induction f1 with
  | zero =>
    intro f2 cur h1 h2
    have hc : ¬(dayNumber cur ≤ dayNumber endD) := by omega
    cases f2 with
    | zero => rfl
    | succ m => simp [collectDatesAux, hc]
  | succ n ih =>
    intro f2 cur h1 h2
    cases f2 with
    | zero =>
      have hc : ¬(dayNumber cur ≤ dayNumber endD) := by omega
      simp [collectDatesAux, hc]
    | succ m =>
      simp only [collectDatesAux]
      by_cases hc : dayNumber cur ≤ dayNumber endD
      · rw [if_pos hc, if_pos hc]
        congr 1
        exact ih m (addDay cur) (by rw [dayNumber_addDay]; omega)
          (by rw [dayNumber_addDay]; omega)
      · rw [if_neg hc, if_neg hc]

/-- collectDates satisfies exactly the recursion of the source while loop:
emit the current day and continue from the next while the current day is on
or before the end of the range. -/
theorem collectDates_eq (cur endD : Date) :
    collectDates cur endD =
      if dayNumber cur ≤ dayNumber endD then cur :: collectDates (addDay cur) endD
      else [] := by
  unfold collectDates
  by_cases hc : dayNumber cur ≤ dayNumber endD
  · rw [if_pos hc]
    have hn : dayNumber endD + 1 - dayNumber cur =
        (dayNumber endD + 1 - (dayNumber cur + 1)) + 1 := by omega
    rw [hn]
    simp only [collectDatesAux, if_pos hc]
    congr 1
    apply collectDatesAux_fuel <;> rw [dayNumber_addDay]
  · rw [if_neg hc]
    have hz : dayNumber endD + 1 - dayNumber cur = 0 := by omega
    rw [hz]
    rfl

theorem collectDatesAux_length (endD : Date) :
    ∀ (fuel : Nat) (cur : Date), dayNumber endD + 1 - dayNumber cur ≤ fuel →
      (collectDatesAux endD fuel cur).length = dayNumber endD + 1 - dayNumber cur := by
  intro fuel
  induction fuel with
  | zero =>
    intro cur h
    simp only [collectDatesAux, List.length_nil]
    omega
  | succ n ih =>
    intro cur h
    simp only [collectDatesAux]
    by_cases hc : dayNumber cur ≤ dayNumber endD
    · rw [if_pos hc]
      simp only [List.length_cons]
      rw [ih (addDay cur) (by rw [dayNumber_addDay]; omega), dayNumber_addDay]
      omega
    · rw [if_neg hc]
      simp only [List.length_nil]
      omega

theorem collectDates_length (cur endD : Date) :
    (collectDates cur endD).length = dayNumber endD + 1 - dayNumber cur :=
  collectDatesAux_length endD _ cur (le_refl _)

theorem weekRange_length (b : Date) :
    (collectDates (startOfIsoWeek b) (endOfIsoWeek b)).length = 7 := by
  rw [collectDates_length]
  unfold endOfIsoWeek
  rw [dayNumber_addDays]
  omega

theorem monthRange_length (b : Date) :
    (collectDates (startOfMonth b) (endOfMonth b)).length = daysInMonth b.y b.m := by
  rw [collectDates_length]
  have := daysInMonth_pos b.y b.m b.hm1 b.hm2
  simp only [dayNumber, startOfMonth, endOfMonth]
  omega

theorem yearRange_length (b : Date) :
    (collectDates (startOfYear b) (endOfYear b)).length = daysInYear b.y := by
  rw [collectDates_length]
  simp only [dayNumber, startOfYear, endOfYear, daysBeforeMonth, daysInYear]
  omega

/-- JavaScript toLowerCase at the ASCII letters, the only case-bearing
characters among the recognized variable names. -/
def jsToLower (s : String) : String :=
  ⟨s.data.map (fun c => if 65 ≤ c.toNat ∧ c.toNat ≤ 90 then Char.ofNat (c.toNat + 32) else c)⟩

/-- JavaScript String.prototype.split at a colon, over the character
list. -/
def splitColon : List Char → List (List Char)
  | [] => [[]]
  | c :: rest =>
    if c = ':' then [] :: splitColon rest
    else
      match splitColon rest with
      | h :: t => (c :: h) :: t
      | [] => [[c]]

/-- JavaScript String.prototype.split at a colon. -/
def jsSplitColon (s : String) : List String := (splitColon s.data).map (fun l => ⟨l⟩)

/-- The JavaScript Array map under a callback that can throw: none as soon
as any element throws. -/
def mapOption {α β : Type} (f : α → Option β) : List α → Option (List β)
  | [] => some []
  | a :: as =>
    match f a with
    | some b =>
      match mapOption f as with
      | some bs => some (b :: bs)
      | none => none
    | none => none

/-- The default moment format string applied when the split yields no
format part (source: format or else the YYYY-MM-DD literal). -/
def momentFormatOf (fmtStr : String) : String :=
  if fmtStr = "" then "YYYY-MM-DD" else fmtStr

namespace Templater

/-- Embeds Templater.getDateFromVariable of the final Templater.ts: the
single-date variables today with its legacy alias date, yesterday and
tomorrow; null for every other name. -/
def getDateFromVariable (now : Date) (varName : String) : Option Date :=
  match jsToLower varName with
  | "date" => some now
  | "today" => some now
  | "yesterday" => some (subDay now)
  | "tomorrow" => some (addDay now)
  | _ => none

/-- Embeds Templater.getDatesForRange of the final Templater.ts: the nine
recognized range variables, each resolved as the startOf and endOf bounds
of the moment range and collected one day at a time; null for every other
name. -/
def getDatesForRange (now : Date) (varName : String) : Option (List Date) :=
  match jsToLower varName with
  | "this-week" => some (collectDates (startOfIsoWeek now) (endOfIsoWeek now))
  | "last-week" =>
    some (collectDates (startOfIsoWeek (subDays now 7)) (endOfIsoWeek (subDays now 7)))
  | "next-week" =>
    some (collectDates (startOfIsoWeek (addDays now 7)) (endOfIsoWeek (addDays now 7)))
  | "this-month" => some (collectDates (startOfMonth now) (endOfMonth now))
  | "last-month" =>
    some (collectDates (startOfMonth (subMonth now)) (endOfMonth (subMonth now)))
  | "next-month" =>
    some (collectDates (startOfMonth (addMonth now)) (endOfMonth (addMonth now)))
  | "this-year" => some (collectDates (startOfYear now) (endOfYear now))
  | "last-year" =>
    some (collectDates (startOfYear (subYear now)) (endOfYear (subYear now)))
  | "next-year" =>
    some (collectDates (startOfYear (addYear now)) (endOfYear (addYear now)))
  | _ => none

/-- The catch handler of Templater.resolve: re-resolve the variable as a
single date and format it with the default format; an unrecognized variable
leaves the whole match unchanged.  A failure of the default format itself
escapes as none. -/
def resolveCatch (fmt : Date → String → Option String) (now : Date)
    (varName origMatch : String) : Option String :=
  match getDateFromVariable now varName with
  | some d => fmt d "YYYY-MM-DD"
  | none => some origMatch

/-- The body of the replace callback of Templater.resolve once the variable
and format have been split out: try a range first, then a single date; a
thrown format error falls to the catch handler; an unrecognized variable
returns the match unchanged. -/
def resolveVarFormat (fmt : Date → String → Option String) (now : Date)
    (varName fmtStr origMatch : String) : Option String :=
  match getDatesForRange now varName with
  | some dateRange =>
    match mapOption (fun d => fmt d (momentFormatOf fmtStr)) dateRange with
    | some formattedDates => some ("(" ++ String.intercalate "|" formattedDates ++ ")")
    | none => resolveCatch fmt now varName origMatch
  | none =>
    match getDateFromVariable now varName with
    | some targetDate =>
      match fmt targetDate (momentFormatOf fmtStr) with
      | some s => some s
      | none => resolveCatch fmt now varName origMatch
    | none => some origMatch

/-- The replace callback of Templater.resolve on the captured content:
trim, split at colons, trim the parts, then resolve variable and format;
the original match is the content re-wrapped in its braces. -/
def resolveContent (fmt : Date → String → Option String) (now : Date)
    (content : String) : Option String :=
  resolveVarFormat fmt now
    (((jsSplitColon (jsTrim content)).map jsTrim).getD 0 "")
    (((jsSplitColon (jsTrim content)).map jsTrim).getD 1 "")
    ("\x7b\x7b" ++ content ++ "\x7d\x7d")

end Templater

/-- Opening brace character. -/
def obr : Char := Char.ofNat 123

/-- Closing brace character. -/
def cbr : Char := Char.ofNat 125

/-- Unicode line separator, a line terminator the template dot cannot
match. -/
def lineSep : Char := Char.ofNat 0x2028

/-- Unicode paragraph separator, a line terminator the template dot cannot
match. -/
def paraSep : Char := Char.ofNat 0x2029

/-- The lazy close search of the template pattern: the shortest content
before a double closing brace; none when a line terminator or the end of
input comes first, so the attempted match at this position fails. -/
def findClose : List Char → Option (List Char × List Char)
  | [] => none
  | c :: rest =>
    if c = cbr then
      match rest with
      | c2 :: rest2 =>
        if c2 = cbr then some ([], rest2)
        else
          match findClose rest with
          | some (content, after) => some (c :: content, after)
          | none => none
      | [] => none
    else if c = '\n' ∨ c = '\r' ∨ c = lineSep ∨ c = paraSep then none
    else
      match findClose rest with
      | some (content, after) => some (c :: content, after)
      | none => none

/-- One unit of fuel per step over the character list of the template: a
double opening brace whose close is found is replaced through the callback
and scanning resumes after the match, otherwise one character is emitted
and scanning advances one position, exactly as the global replace does.
Each step consumes at least one character, so the wrapper's fuel (the
length of the list) never runs out. -/
def scanAux (pm : String → Option String) : Nat → List Char → Option String
  | 0, _ => some ""
  | _ + 1, [] => some ""
  | fuel + 1, c :: rest =>
    match rest with
    | c2 :: rest2 =>
      if c = obr ∧ c2 = obr then
        match findClose rest2 with
        | some (content, after) =>
          match pm (String.mk content) with
          | some rep =>
            match scanAux pm fuel after with
            | some s => some (rep ++ s)
            | none => none
          | none => none
        | none =>
          match scanAux pm fuel rest with
          | some s => some (c.toString ++ s)
          | none => none
      else
        match scanAux pm fuel rest with
        | some s => some (c.toString ++ s)
        | none => none
    | [] =>
      match scanAux pm fuel rest with
      | some s => some (c.toString ++ s)
      | none => none

namespace Templater

/-- Embeds Templater.resolve of the final Templater.ts: global replacement
of every double-braced template in the string, each match resolved by the
replace callback; none models an exception escaping resolve. -/
def resolve (fmt : Date → String → Option String) (now : Date)
    (template : String) : Option String :=
  scanAux (resolveContent fmt now) template.data.length template.data

end Templater

theorem mapOption_some {α β : Type} (g : α → β) (l : List α) :
    mapOption (fun a => some (g a)) l = some (l.map g) := by
  induction l with
  | nil => rfl
  | cons a as ih => simp [mapOption, ih]

theorem resolveVarFormat_range_total (g : Date → String → String) (now : Date)
    (v orig : String) (ds : List Date)
    (h1 : Templater.getDatesForRange now v = some ds) :
    Templater.resolveVarFormat (fun d f => some (g d f)) now v "" orig =
      some ("(" ++ String.intercalate "|" (ds.map (fun d => g d "YYYY-MM-DD")) ++ ")") := by
  have hmf : momentFormatOf "" = "YYYY-MM-DD" := rfl
  simp only [Templater.resolveVarFormat, h1, hmf, mapOption_some]

/-- C8.  Every recognized range variable expands to an alternation with one
formatted alternative per calendar day of the range, and the alternative
count matches the calendar span exactly: 7 for the ISO week variables, the
length of the resolved month (between 28 and 31) for the month variables,
and 365 or 366 for the year variables. -/
theorem rangeVariable_expansion (g : Date → String → String) (now : Date) (orig : String) :
    (∃ ds, Templater.getDatesForRange now "this-week" = some ds ∧ ds.length = 7 ∧
      Templater.resolveVarFormat (fun d f => some (g d f)) now "this-week" "" orig =
        some ("(" ++ String.intercalate "|" (ds.map (fun d => g d "YYYY-MM-DD")) ++ ")")) ∧
    (∃ ds, Templater.getDatesForRange now "last-week" = some ds ∧ ds.length = 7 ∧
      Templater.resolveVarFormat (fun d f => some (g d f)) now "last-week" "" orig =
        some ("(" ++ String.intercalate "|" (ds.map (fun d => g d "YYYY-MM-DD")) ++ ")")) ∧
    (∃ ds, Templater.getDatesForRange now "next-week" = some ds ∧ ds.length = 7 ∧
      Templater.resolveVarFormat (fun d f => some (g d f)) now "next-week" "" orig =
        some ("(" ++ String.intercalate "|" (ds.map (fun d => g d "YYYY-MM-DD")) ++ ")")) ∧
    (∃ ds, Templater.getDatesForRange now "this-month" = some ds ∧
      ds.length = daysInMonth now.y now.m ∧ 28 ≤ ds.length ∧ ds.length ≤ 31 ∧
      Templater.resolveVarFormat (fun d f => some (g d f)) now "this-month" "" orig =
        some ("(" ++ String.intercalate "|" (ds.map (fun d => g d "YYYY-MM-DD")) ++ ")")) ∧
    (∃ ds, Templater.getDatesForRange now "last-month" = some ds ∧
      ds.length = daysInMonth (subMonth now).y (subMonth now).m ∧
      28 ≤ ds.length ∧ ds.length ≤ 31 ∧
      Templater.resolveVarFormat (fun d f => some (g d f)) now "last-month" "" orig =
        some ("(" ++ String.intercalate "|" (ds.map (fun d => g d "YYYY-MM-DD")) ++ ")")) ∧
    (∃ ds, Templater.getDatesForRange now "next-month" = some ds ∧
      ds.length = daysInMonth (addMonth now).y (addMonth now).m ∧
      28 ≤ ds.length ∧ ds.length ≤ 31 ∧
      Templater.resolveVarFormat (fun d f => some (g d f)) now "next-month" "" orig =
        some ("(" ++ String.intercalate "|" (ds.map (fun d => g d "YYYY-MM-DD")) ++ ")")) ∧
    (∃ ds, Templater.getDatesForRange now "this-year" = some ds ∧
      ds.length = daysInYear now.y ∧ (ds.length = 365 ∨ ds.length = 366) ∧
      Templater.resolveVarFormat (fun d f => some (g d f)) now "this-year" "" orig =
        some ("(" ++ String.intercalate "|" (ds.map (fun d => g d "YYYY-MM-DD")) ++ ")")) ∧
    (∃ ds, Templater.getDatesForRange now "last-year" = some ds ∧
      ds.length = daysInYear (subYear now).y ∧ (ds.length = 365 ∨ ds.length = 366) ∧
      Templater.resolveVarFormat (fun d f => some (g d f)) now "last-year" "" orig =
        some ("(" ++ String.intercalate "|" (ds.map (fun d => g d "YYYY-MM-DD")) ++ ")")) ∧
    (∃ ds, Templater.getDatesForRange now "next-year" = some ds ∧
      ds.length = daysInYear (addYear now).y ∧ (ds.length = 365 ∨ ds.length = 366) ∧
      Templater.resolveVarFormat (fun d f => some (g d f)) now "next-year" "" orig =
        some ("(" ++ String.intercalate "|" (ds.map (fun d => g d "YYYY-MM-DD")) ++ ")")) := by
  refine ⟨⟨_, rfl, weekRange_length now, resolveVarFormat_range_total g now _ orig _ rfl⟩,
    ⟨_, rfl, weekRange_length (subDays now 7), resolveVarFormat_range_total g now _ orig _ rfl⟩,
    ⟨_, rfl, weekRange_length (addDays now 7), resolveVarFormat_range_total g now _ orig _ rfl⟩,
    ⟨_, rfl, monthRange_length now, ?_, ?_, resolveVarFormat_range_total g now _ orig _ rfl⟩,
    ⟨_, rfl, monthRange_length (subMonth now), ?_, ?_,
      resolveVarFormat_range_total g now _ orig _ rfl⟩,
    ⟨_, rfl, monthRange_length (addMonth now), ?_, ?_,
      resolveVarFormat_range_total g now _ orig _ rfl⟩,
    ⟨_, rfl, yearRange_length now, ?_, resolveVarFormat_range_total g now _ orig _ rfl⟩,
    ⟨_, rfl, yearRange_length (subYear now), ?_,
      resolveVarFormat_range_total g now _ orig _ rfl⟩,
    ⟨_, rfl, yearRange_length (addYear now), ?_,
      resolveVarFormat_range_total g now _ orig _ rfl⟩⟩
  · rw [monthRange_length now]
    exact (daysInMonth_bounds now.y now.m now.hm1 now.hm2).1
  · rw [monthRange_length now]
    exact (daysInMonth_bounds now.y now.m now.hm1 now.hm2).2
  · rw [monthRange_length (subMonth now)]
    exact (daysInMonth_bounds _ _ (subMonth now).hm1 (subMonth now).hm2).1
  · rw [monthRange_length (subMonth now)]
    exact (daysInMonth_bounds _ _ (subMonth now).hm1 (subMonth now).hm2).2
  · rw [monthRange_length (addMonth now)]
    exact (daysInMonth_bounds _ _ (addMonth now).hm1 (addMonth now).hm2).1
  · rw [monthRange_length (addMonth now)]
    exact (daysInMonth_bounds _ _ (addMonth now).hm1 (addMonth now).hm2).2
  · rw [yearRange_length now]
    simp only [daysInYear, leapAdj]
    split_ifs <;> omega
  · rw [yearRange_length (subYear now)]
    simp only [daysInYear, leapAdj]
    split_ifs <;> omega
  · rw [yearRange_length (addYear now)]
    simp only [daysInYear, leapAdj]
    split_ifs <;> omega

theorem resolveVarFormat_isSome (fmt : Date → String → Option String) (now : Date)
    (hdef : ∀ d, (fmt d "YYYY-MM-DD").isSome = true) (v f orig : String) :
    (Templater.resolveVarFormat fmt now v f orig).isSome = true := by
  cases h1 : Templater.getDatesForRange now v with
  | some ds =>
    cases h2 : mapOption (fun d => fmt d (momentFormatOf f)) ds with
    | some fs => simp [Templater.resolveVarFormat, h1, h2]
    | none =>
      cases h3 : Templater.getDateFromVariable now v with
      | some d =>
        have hs := hdef d
        simp [Templater.resolveVarFormat, Templater.resolveCatch, h1, h2, h3, hs]
      | none => simp [Templater.resolveVarFormat, Templater.resolveCatch, h1, h2, h3]
  | none =>
    cases h3 : Templater.getDateFromVariable now v with
    | some d =>
      cases h4 : fmt d (momentFormatOf f) with
      | some s => simp [Templater.resolveVarFormat, h1, h3, h4]
      | none =>
        have hs := hdef d
        simp [Templater.resolveVarFormat, Templater.resolveCatch, h1, h3, h4, hs]
    | none => simp [Templater.resolveVarFormat, h1, h3]

theorem resolveContent_isSome (fmt : Date → String → Option String) (now : Date)
    (hdef : ∀ d, (fmt d "YYYY-MM-DD").isSome = true) (content : String) :
    (Templater.resolveContent fmt now content).isSome = true :=
  resolveVarFormat_isSome fmt now hdef _ _ _

theorem scanAux_isSome (pm : String → Option String)
    (hpm : ∀ c, (pm c).isSome = true) :
    ∀ (fuel : Nat) (cs : List Char), (scanAux pm fuel cs).isSome = true := by
  intro fuel
  induction fuel with
  | zero => intro cs; rfl
  | succ n ih =>
    intro cs
    rcases cs with _ | ⟨c, rest⟩
    · rfl
    · rcases rest with _ | ⟨c2, rest2⟩
      · simp only [scanAux]
        cases h : scanAux pm n [] with
        | some s => simp
        | none =>
          have := ih []
          rw [h] at this
          exact absurd this (by simp)
      · simp only [scanAux]
        split
        · cases hf : findClose rest2 with
          | some pr =>
            cases hp : pm (String.mk pr.1) with
            | some rep =>
              cases h : scanAux pm n pr.2 with
              | some s => simp [hf, hp, h]
              | none =>
                have := ih pr.2
                rw [h] at this
                exact absurd this (by simp)
            | none =>
              have := hpm (String.mk pr.1)
              rw [hp] at this
              exact absurd this (by simp)
          | none =>
            cases h : scanAux pm n (c2 :: rest2) with
            | some s => simp [hf, h]
            | none =>
              have := ih (c2 :: rest2)
              rw [h] at this
              exact absurd this (by simp)
        · cases h : scanAux pm n (c2 :: rest2) with
          | some s => simp [h]
          | none =>
            have := ih (c2 :: rest2)
            rw [h] at this
            exact absurd this (by simp)

/-- C9 amended.  Assuming moment's default format always applies, resolve
is total: every template resolves without an exception; a recognized
single-date variable with a failing format falls back to the default
YYYY-MM-DD format; a recognized range variable with a failing format is
left in the output unchanged as literal text, without the default-format
fallback; an unrecognized variable placeholder is left unchanged with no
error. -/
theorem resolve_total_and_fallback (fmt : Date → String → Option String) (now : Date)
    (hdef : ∀ d, (fmt d "YYYY-MM-DD").isSome = true) :
    (∀ template, (Templater.resolve fmt now template).isSome = true) ∧
    (∀ v f orig d, Templater.getDatesForRange now v = none →
      Templater.getDateFromVariable now v = some d →
      fmt d (momentFormatOf f) = none →
      Templater.resolveVarFormat fmt now v f orig = fmt d "YYYY-MM-DD") ∧
    (∀ v f orig ds, Templater.getDatesForRange now v = some ds →
      Templater.getDateFromVariable now v = none →
      mapOption (fun d => fmt d (momentFormatOf f)) ds = none →
      Templater.resolveVarFormat fmt now v f orig = some orig) ∧
    (∀ v f orig, Templater.getDatesForRange now v = none →
      Templater.getDateFromVariable now v = none →
      Templater.resolveVarFormat fmt now v f orig = some orig) := by
  refine ⟨?_, ?_, ?_, ?_⟩
  · intro template
    exact scanAux_isSome _ (resolveContent_isSome fmt now hdef) _ _
  · intro v f orig d h1 h2 h3
    simp only [Templater.resolveVarFormat, Templater.resolveCatch, h1, h2, h3]
  · intro v f orig ds h1 h2 h3
    simp only [Templater.resolveVarFormat, Templater.resolveCatch, h1, h2, h3]
  · intro v f orig h1 h2
    simp only [Templater.resolveVarFormat, h1, h2]

/-- Concrete reference date for the resolve counterexample and witness:
March 10 of year 5. -/
def sampleNow : Date := ⟨5, 3, 10, by decide, by decide, by decide, by decide⟩

/-- Concrete formatter that throws exactly on the format string BAD and
formats any date as y-m-d otherwise. -/
def badFmt : Date → String → Option String :=
  fun d f =>
    if f == "BAD" then none
    else some (toString d.y ++ "-" ++ toString d.m ++ "-" ++ toString d.d)

/-- Counterexample for C9 as stated: at a recognized range variable whose
format string fails to apply, resolution succeeds but leaves the
placeholder unchanged as literal text instead of falling back to the
default YYYY-MM-DD expansion (the same template without the failing format
resolves to the default-format alternation, a different result). -/
theorem resolve_range_fallback_counterexample :
    (Templater.getDatesForRange sampleNow "this-week").isSome = true ∧
    badFmt sampleNow "BAD" = none ∧
    Templater.resolve badFmt sampleNow "\x7b\x7bthis-week:BAD\x7d\x7d" =
      some "\x7b\x7bthis-week:BAD\x7d\x7d" ∧
    Templater.resolve badFmt sampleNow "\x7b\x7bthis-week\x7d\x7d" =
      some "(5-3-7|5-3-8|5-3-9|5-3-10|5-3-11|5-3-12|5-3-13)" ∧
    Templater.resolve badFmt sampleNow "\x7b\x7bthis-week:BAD\x7d\x7d" ≠
      Templater.resolve badFmt sampleNow "\x7b\x7bthis-week\x7d\x7d" := by
  refine ⟨by decide, by decide, by decide, by decide, by decide⟩

/-- Witness for C9 amended, applying its totality component at a concrete
formatter that fails on the BAD format string. -/
theorem resolve_total_and_fallback_witness :
    (Templater.resolve badFmt sampleNow "\x7b\x7btoday:BAD\x7d\x7d").isSome = true :=
  (resolve_total_and_fallback badFmt sampleNow (fun _ => rfl)).1 "\x7b\x7btoday:BAD\x7d\x7d"

end RLF
